import Mathlib

/-!
Verification of the sql_ish in-memory relational engine
(modules/core/table.py, modules/core/where.py, modules/parser/parser.py,
modules/engine/join.py, modules/engine/db.py).

The embedding is shallow: Python values that can appear in rows and in
parsed literals (None, int, float, str) become the inductive type
Value; Python int and float are modelled together by exact rationals,
which matches Python's cross-type numeric equality (1 == 1.0) and
ordering; fallible Python code (raised exceptions) is modelled with
Except String.  Decimal-to-float rounding is not modelled: every claim
under study only involves numbers that doubles represent exactly.
-/

/-- Scalar value stored in a row or carried by a parsed literal.
Python None is VNull, Python int/float are VNum (exact rational),
Python str is VStr. -/
inductive Value where
  | VNull : Value
  | VNum : ℚ → Value
  | VStr : String → Value
  deriving DecidableEq, Repr

open Value

/-- Numeric value of a run of decimal digit characters. -/
def natOfDigits (l : List Char) : ℕ :=
  l.foldl (fun a c => a * 10 + (c.toNat - 48)) 0

/-- Whether every character in the list is a decimal digit. -/
def isDigits (l : List Char) : Bool :=
  l.all (fun c => c.isDigit)

/-- Split a character list at the FIRST occurrence of a pattern,
returning the pieces before and after it.  Models the behavior of
Python str.find / str.split(pat, 1) when the pattern occurs. -/
def splitOnce (s pat : List Char) : Option (List Char × List Char) :=
  if pat.isPrefixOf s then some ([], s.drop pat.length)
  else
    match s with
    | [] => none
    | c :: cs =>
      match splitOnce cs pat with
      | some (l, r) => some (c :: l, r)
      | none => none

/-- Whether the pattern occurs somewhere in the list, as Python's
infix membership test on strings. -/
def containsSub (s pat : List Char) : Bool :=
  (splitOnce s pat).isSome

/-- Mantissa of a Python float literal: digits with an optional single
decimal point, at least one digit present. -/
def parseMantissa (m : List Char) : Option ℚ :=
  match splitOnce m ['.'] with
  | some (i, f) =>
    if isDigits i && isDigits f && !(i.isEmpty && f.isEmpty) then
      some ((natOfDigits i : ℚ) + (natOfDigits f : ℚ) / (10 : ℚ) ^ f.length)
    else none
  | none =>
    if isDigits m && !m.isEmpty then some (natOfDigits m : ℚ) else none

/-- Signed decimal exponent of a Python float literal. -/
def parseExponent (e : List Char) : Option ℤ :=
  match e with
  | '+' :: d => if isDigits d && !d.isEmpty then some (natOfDigits d : ℤ) else none
  | '-' :: d => if isDigits d && !d.isEmpty then some (-(natOfDigits d : ℤ)) else none
  | d => if isDigits d && !d.isEmpty then some (natOfDigits d : ℤ) else none

/-- Unsigned part of a Python float literal: mantissa with optional
exponent (the characters are already lowercased by the caller). -/
def parseUnsignedFloat (cs : List Char) : Option ℚ :=
  match splitOnce cs ['e'] with
  | some (m, e) => do
    let q ← parseMantissa m
    let k ← parseExponent e
    some (q * (10 : ℚ) ^ k)
  | none => parseMantissa cs

/-- Model of Python str.strip on characters: remove leading and
trailing whitespace. -/
def stripChars (l : List Char) : List Char :=
  ((l.dropWhile Char.isWhitespace).reverse.dropWhile Char.isWhitespace).reverse

/-- Model of Python str.strip on strings. -/
def pyStrip (s : String) : String :=
  String.mk (stripChars s.data)

/-- Model of Python float(s) on a string: surrounding whitespace is
trimmed, an optional sign precedes the mantissa.  The special texts
inf / nan are not modelled (no claim involves them); rounding of the
exact decimal value to a double is not modelled. -/
def pyFloat? (s : String) : Option ℚ :=
  match ((pyStrip s).data.map Char.toLower) with
  | '+' :: r => parseUnsignedFloat r
  | '-' :: r => (parseUnsignedFloat r).map (fun q => -q)
  | r => parseUnsignedFloat r

/-- Model of Python int(s) on a string: trimmed, optional sign, then
decimal digits (digit-group underscores are not modelled). -/
def pyInt? (s : String) : Option ℤ :=
  match (pyStrip s).data with
  | '+' :: d => if isDigits d && !d.isEmpty then some (natOfDigits d : ℤ) else none
  | '-' :: d => if isDigits d && !d.isEmpty then some (-(natOfDigits d : ℤ)) else none
  | d => if isDigits d && !d.isEmpty then some (natOfDigits d : ℤ) else none

/-- Model of Python float(x) applied to a row value or literal:
numbers convert to themselves, strings are parsed, None raises
TypeError (= failure, caught by the evaluator's except clause). -/
def toNum : Value → Option ℚ
  | VNull => none
  | VNum q => some q
  | VStr s => pyFloat? s

/-- Python's < on the values reachable in the string-fallback branch of
Comparison.evaluate: two strings compare lexicographically, two numbers
numerically, and every mixed or None comparison raises TypeError. -/
def pyLt : Value → Value → Except String Bool
  | VStr a, VStr b => .ok (decide (a < b))
  | VNum a, VNum b => .ok (decide (a < b))
  | _, _ => .error "TypeError: unorderable types"

/-- Python's <= under the same typing rules as pyLt. -/
def pyLe : Value → Value → Except String Bool
  | VStr a, VStr b => .ok (decide (a ≤ b))
  | VNum a, VNum b => .ok (decide (a ≤ b))
  | _, _ => .error "TypeError: unorderable types"

/-- Numeric comparison dispatch inside the try block of
Comparison.evaluate (where.py lines 72-83); an unrecognized operator
falls through to the final return False (line 99). -/
def numCmp (op : String) (a b : ℚ) : Bool :=
  if op = "=" then decide (a = b)
  else if op = "<" then decide (a < b)
  else if op = ">" then decide (b < a)
  else if op = "<=" then decide (a ≤ b)
  else if op = ">=" then decide (b ≤ a)
  else if op = "!=" then decide (a ≠ b)
  else false

/-- String-fallback comparison dispatch in the except branch of
Comparison.evaluate (where.py lines 84-97): Python == / != never raise
on these values, the four order operators raise TypeError on None or
mixed types; an unrecognized operator reaches the final return False. -/
def strCmp (op : String) (x y : Value) : Except String Bool :=
  if op = "=" then .ok (decide (x = y))
  else if op = "<" then pyLt x y
  else if op = ">" then pyLt y x
  else if op = "<=" then pyLe x y
  else if op = ">=" then pyLe y x
  else if op = "!=" then .ok (decide (x ≠ y))
  else .ok false

/-- Condition tree of where.py: Comparison leaves and And/Or/Not
nodes. -/
inductive Cond where
  | Comparison : String → String → Value → Cond
  | And : Cond → Cond → Cond
  | Or : Cond → Cond → Cond
  | Not : Cond → Cond
  deriving DecidableEq, Repr

/-- Comparison.evaluate (where.py lines 48-99): a column missing from
the schema yields False; otherwise the row value at the column's first
index is compared with the stored literal, numerically when both
convert under float(), else by the string-fallback branch.  Reading
past the end of a too-short row is Python's IndexError. -/
def evalComparison (col op : String) (v : Value) (row : List Value)
    (columns : List String) : Except String Bool :=
  if col ∈ columns then
    let idx := columns.indexOf col
    if h : idx < row.length then
      let rv := row.get ⟨idx, h⟩
      match toNum rv, toNum v with
      | some a, some b => .ok (numCmp op a b)
      | _, _ => strCmp op rv v
    else .error "IndexError: tuple index out of range"
  else .ok false

/-- Condition.evaluate over the tree: Python's and / or short-circuit,
not negates (where.py lines 120-196). -/
def evaluate : Cond → List Value → List String → Except String Bool
  | .Comparison col op v, row, columns => evalComparison col op v row columns
  | .And l r, row, columns => do
    let b ← evaluate l row columns
    if b then evaluate r row columns else .ok false
  | .Or l r, row, columns => do
    let b ← evaluate l row columns
    if b then .ok true else evaluate r row columns
  | .Not c, row, columns => do
    let b ← evaluate c row columns
    .ok (!b)

/-- Table of table.py: a name, an ordered schema of column names, and
an ordered list of rows.  Python mutation is modelled by returning the
updated table value. -/
structure Table where
  name : String
  columns : List String
  rows : List (List Value)
  deriving DecidableEq, Repr

namespace Table

/-- Python row[i] under the row-length invariant; out-of-range access
(Python IndexError) is outside every guarded use below. -/
def rowGet (r : List Value) (i : ℕ) : Value :=
  r.getD i VNull

/-- Table.insert (table.py lines 36-49): the arity guard raises
ValueError before any mutation; on success the single row is appended
at the end. -/
def insert (t : Table) (values : List Value) : Except String Table :=
  if values.length ≠ t.columns.length then
    .error ("Expected " ++ toString t.columns.length ++ " values, got "
      ++ toString values.length)
  else
    .ok { t with rows := t.rows ++ [values] }

/-- Table.select (table.py lines 65-86): same name and schema, keeping
the rows the predicate accepts; a missing predicate keeps every row. -/
def select (t : Table) (p : Option (List Value → List String → Bool)) : Table :=
  match p with
  | none => { t with }
  | some f => { t with rows := t.rows.filter (fun r => f r t.columns) }

/-- Table.project (table.py lines 88-112): an empty request clones the
table; otherwise the result schema is the requested names verbatim,
while the value indices are taken only from the requested names that
exist in the source schema (first occurrence), in request order. -/
def project (t : Table) (proj_columns : List String) : Table :=
  if proj_columns.isEmpty then { t with }
  else
    let indices : List ℕ :=
      proj_columns.filterMap
        (fun col => if col ∈ t.columns then some (t.columns.indexOf col) else none)
    { name := t.name
      columns := proj_columns
      rows := t.rows.map (fun r => indices.map (fun i => rowGet r i)) }

/-- Table.union (table.py lines 114-137): schemas must match; self's
rows are kept, then each row of other that is absent from the set of
self's rows is appended in order (the set is not updated while
appending). -/
def union (t other : Table) : Except String Table :=
  if t.columns ≠ other.columns then
    .error "Cannot union tables with different schemas"
  else
    .ok { name := t.name ++ "_union_" ++ other.name
          columns := t.columns
          rows := t.rows ++ other.rows.filter (fun r => r ∉ t.rows) }

/-- Table.intersection (table.py lines 139-162): schemas must match;
keeps self's rows that also occur in other. -/
def intersection (t other : Table) : Except String Table :=
  if t.columns ≠ other.columns then
    .error "Cannot intersect tables with different schemas"
  else
    .ok { name := t.name ++ "_intersect_" ++ other.name
          columns := t.columns
          rows := t.rows.filter (fun r => r ∈ other.rows) }

/-- Table.difference (table.py lines 164-187): schemas must match;
keeps self's rows that do not occur in other. -/
def difference (t other : Table) : Except String Table :=
  if t.columns ≠ other.columns then
    .error "Cannot diff tables with different schemas"
  else
    .ok { name := t.name ++ "_diff_" ++ other.name
          columns := t.columns
          rows := t.rows.filter (fun r => r ∉ other.rows) }

/-- Column list of a cartesian product (table.py lines 199-208): a
column of other whose name also occurs in self is qualified with
other's name. -/
def productColumns (t other : Table) : List String :=
  t.columns ++ other.columns.map
    (fun col => if col ∈ t.columns then other.name ++ "." ++ col else col)

/-- Table.cartesian_product (table.py lines 189-218): every pair of a
self row and an other row, concatenated, in self-major order. -/
def cartesian_product (t other : Table) : Table :=
  { name := t.name ++ "_product_" ++ other.name
    columns := productColumns t other
    rows := t.rows.flatMap (fun r1 => other.rows.map (fun r2 => r1 ++ r2)) }

/-- Table.__bool__ (table.py lines 236-246): a Table is always truthy,
also when it holds no rows. -/
def toBool (_t : Table) : Bool :=
  true

/-- Row-length invariant stated in the spec's data model: every row is
exactly as long as the schema. -/
def WF (t : Table) : Prop :=
  ∀ r ∈ t.rows, r.length = t.columns.length

instance (t : Table) : Decidable (WF t) :=
  inferInstanceAs (Decidable (∀ r ∈ t.rows, r.length = t.columns.length))

end Table

/-- Truth of the dispatcher's existence test: db.py's query method
(lines 105-130) writes the check as Python "if not table" on the
result of get_table, which is None for a missing name.  The test
therefore fires exactly when the lookup returned nothing, or when a
found table is falsy. -/
def tableMissing (lookup : Option Table) : Bool :=
  match lookup with
  | none => true
  | some t => !t.toBool

open Table

/-- Accumulation loop of _prepare_join (join.py lines 80-97): walk the
right schema, skip every occurrence of the right join column, qualify a
name already present in the accumulated joined schema with the right
table's name.  Returns the full joined schema and the right-origin
names. -/
def joinColumnsLoop (rightName : String) (rjc : String) :
    List String → List String → List String → List String × List String
  | [], joined, rightNames => (joined, rightNames)
  | col :: rest, joined, rightNames =>
    if col = rjc then joinColumnsLoop rightName rjc rest joined rightNames
    else
      let newCol := if col ∈ joined then rightName ++ "." ++ col else col
      joinColumnsLoop rightName rjc rest (joined ++ [newCol]) (rightNames ++ [newCol])

/-- Result of _prepare_join: the empty result table, the two join
indices, and the right-origin column names. -/
structure PrepJoin where
  result : Table
  leftJoinIdx : ℕ
  rightJoinIdx : ℕ
  rightColNames : List String
  deriving Repr

/-- The function _prepare_join (join.py lines 56-107) with the right
join column given explicitly (the heuristic _find_join_column only
runs when it is omitted): both join columns must exist, the joined
schema is the left schema followed by the renamed right columns, and
the join indices are the first occurrences of the join columns. -/
def prepare_join (lt rt : Table) (jc rjc : String) (joinType : String) :
    Except String PrepJoin :=
  if jc ∉ lt.columns then
    .error ("Join column " ++ jc ++ " not found in left table")
  else if rjc ∉ rt.columns then
    .error ("Join column " ++ rjc ++ " not found in right table")
  else
    let pair := joinColumnsLoop rt.name rjc rt.columns lt.columns []
    .ok { result := { name := lt.name ++ "_" ++ joinType ++ "_join_" ++ rt.name
                      columns := pair.1
                      rows := [] }
          leftJoinIdx := lt.columns.indexOf jc
          rightJoinIdx := rt.columns.indexOf rjc
          rightColNames := pair.2 }

/-- Right rows matching a key, in insertion order: the dict of rows per
key built by inner_join / left_join (join.py lines 129-134 and 174-179)
maps each key to exactly the right rows carrying that key in their
original order, so looking the key up yields this filter. -/
def matchesFor (rt : Table) (rIdx : ℕ) (key : Value) : List (List Value) :=
  rt.rows.filter (fun r => rowGet r rIdx = key)

/-- One joined row (join.py lines 144-150): the left row followed by
the right row without the entry at the right join index. -/
def joinedRow (lrow rrow : List Value) (rIdx : ℕ) : List Value :=
  lrow ++ rrow.eraseIdx rIdx

/-- The function inner_join (join.py lines 109-152): per left row, one
output row for every right row sharing its key; no match, no output. -/
def inner_join (lt rt : Table) (jc rjc : String) : Except String Table := do
  let pj ← prepare_join lt rt jc rjc "inner"
  let rows := lt.rows.flatMap (fun lrow =>
    (matchesFor rt pj.rightJoinIdx (rowGet lrow pj.leftJoinIdx)).map
      (fun rrow => joinedRow lrow rrow pj.rightJoinIdx))
  .ok { pj.result with rows := rows }

/-- The function left_join (join.py lines 154-204): as inner_join, but
a left row with no key match emits once with None for every right-origin
column. -/
def left_join (lt rt : Table) (jc rjc : String) : Except String Table := do
  let pj ← prepare_join lt rt jc rjc "left"
  let rows := lt.rows.flatMap (fun lrow =>
    let ms := matchesFor rt pj.rightJoinIdx (rowGet lrow pj.leftJoinIdx)
    if ms.isEmpty then
      [lrow ++ List.replicate pj.rightColNames.length VNull]
    else
      ms.map (fun rrow => joinedRow lrow rrow pj.rightJoinIdx))
  .ok { pj.result with rows := rows }

/-- The function right_join (join.py lines 206-225) with the right join
column explicit: swap the operands and left-join. -/
def right_join (lt rt : Table) (jc rjc : String) : Except String Table :=
  left_join rt lt rjc jc

/-- Padded row appended by full_join for an unmatched right row
(join.py lines 260-268): None in EVERY left-schema position, then the
right row without its join entry. -/
def fullJoinPad (lt : Table) (rrow : List Value) (rIdx : ℕ) : List Value :=
  List.replicate lt.columns.length VNull ++ rrow.eraseIdx rIdx

/-- The function full_join (join.py lines 227-270) with the right join
column explicit: first the left join, then for each right row whose key
does not occur among the keys of the left table's own rows, the padded
row is appended. -/
def full_join (lt rt : Table) (jc rjc : String) : Except String Table := do
  let res ← left_join lt rt jc rjc
  let lIdx := lt.columns.indexOf jc
  let rIdx := rt.columns.indexOf rjc
  let leftKeys := lt.rows.map (fun r => rowGet r lIdx)
  let extra := rt.rows.filterMap (fun rrow =>
    if rowGet rrow rIdx ∈ leftKeys then none
    else some (fullJoinPad lt rrow rIdx))
  .ok { res with rows := res.rows ++ extra }

/-- Decomposition of a successful first-occurrence split: the input is
the left part, the pattern, then the right part. -/
theorem splitOnce_append (pat : List Char) :
    ∀ (s l r : List Char), splitOnce s pat = some (l, r) → s = l ++ pat ++ r := by
  intro s
  induction s with
  | nil =>
    intro l r h
    unfold splitOnce at h
    split at h
    · next hpre =>
      have hp : pat = [] := List.eq_nil_of_prefix_nil (List.isPrefixOf_iff_prefix.mp hpre)
      simp_all
    · simp_all
  | cons c cs ih =>
    intro l r h
    unfold splitOnce at h
    split at h
    · next hpre =>
      have hp := List.isPrefixOf_iff_prefix.mp hpre
      have htk : pat = (c :: cs).take pat.length := List.prefix_iff_eq_take.mp hp
      obtain ⟨hl, hr⟩ := by simpa using h
      subst hl hr
      calc c :: cs = (c :: cs).take pat.length ++ (c :: cs).drop pat.length := by
              simp
        _ = [] ++ pat ++ (c :: cs).drop pat.length := by rw [← htk]; simp
    · cases hrec : splitOnce cs pat with
      | none => simp [hrec] at h
      | some p =>
        obtain ⟨l', r'⟩ := p
        simp [hrec] at h
        obtain ⟨hl, hr⟩ := h
        subst hl hr
        simpa using ih l' r' hrec

/-- Length bound used for the parser's termination: splitting on a
nonempty pattern makes both pieces strictly shorter. -/
theorem splitOnce_length (s pat l r : List Char) (hp : pat ≠ [])
    (h : splitOnce s pat = some (l, r)) :
    l.length < s.length ∧ r.length < s.length := by
  have hs := splitOnce_append pat s l r h
  have hpl : 0 < pat.length := List.length_pos.mpr hp
  subst hs
  constructor <;> simp [List.length_append] <;> omega

/-- Literal conversion applied to the right of a comparison operator
(parser.py lines 183-197): matching outer quotes are stripped, the text
null (case-insensitive) becomes None, a token containing a dot is tried
as float else kept as text, any other token is tried as int else kept
as text. -/
def parseLit (v : String) : Value :=
  let cs := v.data
  let quoted := (cs.head? = some '"' && cs.getLast? = some '"')
    || (cs.head? = some '\'' && cs.getLast? = some '\'')
  if quoted then VStr (String.mk ((cs.drop 1).dropLast))
  else if cs.map Char.toLower = "null".data then VNull
  else if cs.contains '.' then
    match pyFloat? v with
    | some q => VNum q
    | none => VStr v
  else
    match pyInt? v with
    | some n => VNum (n : ℚ)
    | none => VStr v

/-- Operator list of parser.py line 177, in its exact order. -/
def opsList : List String := ["=", "<>", "!=", ">", "<", ">=", "<="]

/-- Comparison branch of parse_where_clause (parser.py lines 177-201):
try each operator in order; the first one occurring as a substring
splits the clause once, both sides are stripped and the right side
converted; no operator at all is invalid. -/
def tryOps : List String → String → Except String Cond
  | [], w => .error ("Invalid WHERE clause: " ++ w)
  | op :: rest, w =>
    match splitOnce w.data op.data with
    | some (l, r) =>
      .ok (.Comparison (pyStrip (String.mk l)) op (parseLit (pyStrip (String.mk r))))
    | none => tryOps rest w

/-- Pattern of the uppercase AND keyword with its mandatory spaces. -/
def andPat : List Char := [' ', 'A', 'N', 'D', ' ']

/-- Pattern of the uppercase OR keyword with its mandatory spaces. -/
def orPat : List Char := [' ', 'O', 'R', ' ']

/-- Pattern of the leading NOT keyword. -/
def notPat : List Char := ['N', 'O', 'T', ' ']

/-- The function parse_where_clause (parser.py lines 150-201) on the
clause's characters.  The AND / OR tests look at the uppercased text,
but the split runs on the ORIGINAL text with the uppercase keyword, so
a clause whose keyword is not uppercase passes the test yet fails the
two-variable unpacking of the one-element split result, raising
ValueError.  AND is checked before OR; then a leading NOT (uppercased
test, original tail); then the comparison branch. -/
def parseWhere (cs : List Char) : Except String Cond :=
  if containsSub (cs.map Char.toUpper) andPat then
    match h : splitOnce cs andPat with
    | some (l, r) => do
      let cl ← parseWhere l
      let cr ← parseWhere r
      .ok (.And cl cr)
    | none => .error "ValueError: not enough values to unpack (expected 2, got 1)"
  else if containsSub (cs.map Char.toUpper) orPat then
    match h : splitOnce cs orPat with
    | some (l, r) => do
      let cl ← parseWhere l
      let cr ← parseWhere r
      .ok (.Or cl cr)
    | none => .error "ValueError: not enough values to unpack (expected 2, got 1)"
  else if hn : (cs.map Char.toUpper).take 4 = notPat then do
    let c ← parseWhere (cs.drop 4)
    .ok (.Not c)
  else
    tryOps opsList (String.mk cs)
termination_by cs.length
decreasing_by
  all_goals
    first
      | exact (splitOnce_length _ andPat _ _ (by simp [andPat]) (by assumption)).1
      | exact (splitOnce_length _ andPat _ _ (by simp [andPat]) (by assumption)).2
      | exact (splitOnce_length _ orPat _ _ (by simp [orPat]) (by assumption)).1
      | exact (splitOnce_length _ orPat _ _ (by simp [orPat]) (by assumption)).2
      | (have h4 := congrArg List.length
          (show (cs.map Char.toUpper).take 4 = notPat by assumption)
         simp only [List.length_take, List.length_map, notPat,
           List.length_cons, List.length_nil] at h4
         simp only [List.length_drop]
         omega)

/-- The function parse_where_clause on a string. -/
def parse_where_clause (w : String) : Except String Cond :=
  parseWhere w.data

/-- Substring test on strings, as Python's infix membership. -/
def containsSubStr (s pat : String) : Bool :=
  containsSub s.data pat.data

/-- First-occurrence single split on strings, as Python split(pat, 1)
when the pattern occurs. -/
def splitOnceStr (s pat : String) : Option (String × String) :=
  (splitOnce s.data pat.data).map (fun p => (String.mk p.1, String.mk p.2))

deriving instance DecidableEq for Except

/-- Operators tried before a given operator in the comparison branch
of parse_where_clause. -/
def opsBefore (op : String) : List String :=
  opsList.takeWhile (fun o => o ≠ op)

/-- Type compatibility of the string-fallback branch: an ordering
operator needs the two values to be two texts or two numbers, any
other operator never raises there. -/
def strCmpSafe (op : String) (x y : Value) : Bool :=
  if op = "<" || op = ">" || op = "<=" || op = ">=" then
    match x, y with
    | VStr _, VStr _ => true
    | VNum _, VNum _ => true
    | _, _ => false
  else true

/-- Safety of one comparison against a row: the column may be absent
(the comparison is then False), or the comparison must either run
numerically or have a type-compatible fallback. -/
def compSafe (col op : String) (v : Value) (row : List Value)
    (columns : List String) : Bool :=
  if col ∈ columns then
    let rv := Table.rowGet row (columns.indexOf col)
    ((toNum rv).isSome && (toNum v).isSome) || strCmpSafe op rv v
  else true

/-- Safety of a condition tree against a row: every comparison in the
tree is safe (stronger than needed under short-circuiting, but
sufficient and satisfiable). -/
def condSafe : Cond → List Value → List String → Bool
  | .Comparison col op v, row, columns => compSafe col op v row columns
  | .And l r, row, columns => condSafe l row columns && condSafe r row columns
  | .Or l r, row, columns => condSafe l row columns && condSafe r row columns
  | .Not c, row, columns => condSafe c row columns

/-- A guarded filterMap where the guard keeps is a filter followed by
a map. -/
theorem filterMap_guard_pos {α β : Type} (p : α → Prop) [DecidablePred p]
    (f : α → β) (l : List α) :
    (l.filterMap fun x => if p x then some (f x) else none) =
      (l.filter fun x => decide (p x)).map f := by
  induction l with
  | nil => simp
  | cons a l ih => by_cases h : p a <;> simp [h, ih]

/-- A guarded filterMap where the guard skips is a filter on the
negation followed by a map. -/
theorem filterMap_guard_neg {α β : Type} (p : α → Prop) [DecidablePred p]
    (f : α → β) (l : List α) :
    (l.filterMap fun x => if p x then none else some (f x)) =
      (l.filter fun x => decide ¬ p x).map f := by
  induction l with
  | nil => simp
  | cons a l ih => by_cases h : p a <;> simp [h, ih]

/-- Dropping the occurrences of one element keeps the length minus the
count. -/
theorem filter_ne_length (l : List String) (c : String) :
    (l.filter fun x => decide (x ≠ c)).length = l.length - l.count c := by
  induction l with
  | nil => rfl
  | cons a l ih =>
    have hcl : l.count c ≤ l.length := List.count_le_length c l
    by_cases h : a = c
    · subst h
      have h1 : (a :: l).filter (fun x => decide (x ≠ a))
          = l.filter (fun x => decide (x ≠ a)) := by
        simp [List.filter_cons]
      rw [h1, List.count_cons_self, ih, List.length_cons]
      omega
    · have h1 : (a :: l).filter (fun x => decide (x ≠ c))
          = a :: l.filter (fun x => decide (x ≠ c)) := by
        simp [List.filter_cons, h]
      rw [h1, List.count_cons_of_ne (fun hh => h hh.symm), List.length_cons,
        List.length_cons, ih]
      omega

/-- Lengths produced by the schema-construction loop of _prepare_join:
each kept right column adds one name to the joined schema and one to
the right-origin list. -/
theorem joinColumnsLoop_lengths (rn rjc : String) :
    ∀ (rest joined names : List String),
      ((joinColumnsLoop rn rjc rest joined names).1.length
          = joined.length + (rest.filter fun c => decide (c ≠ rjc)).length) ∧
      ((joinColumnsLoop rn rjc rest joined names).2.length
          = names.length + (rest.filter fun c => decide (c ≠ rjc)).length) := by
  intro rest
  induction rest with
  | nil => simp [joinColumnsLoop]
  | cons c cs ih =>
    intro joined names
    by_cases h : c = rjc
    · simpa [joinColumnsLoop, h] using ih joined names
    · have h1 := ih (joined ++ [if c ∈ joined then rn ++ "." ++ c else c])
        (names ++ [if c ∈ joined then rn ++ "." ++ c else c])
      simp only [joinColumnsLoop, if_neg h] at *
      constructor
      · rw [h1.1]; simp [h]; omega
      · rw [h1.2]; simp [h]; omega

/-- Successful _prepare_join, characterized: when both join columns
exist the result is the empty joined table together with the first
indices of the join columns. -/
theorem prepare_join_ok (lt rt : Table) (jc rjc jt : String)
    (hl : jc ∈ lt.columns) (hr : rjc ∈ rt.columns) :
    prepare_join lt rt jc rjc jt = .ok
      { result := { name := lt.name ++ "_" ++ jt ++ "_join_" ++ rt.name
                    columns := (joinColumnsLoop rt.name rjc rt.columns lt.columns []).1
                    rows := [] }
        leftJoinIdx := lt.columns.indexOf jc
        rightJoinIdx := rt.columns.indexOf rjc
        rightColNames := (joinColumnsLoop rt.name rjc rt.columns lt.columns []).2 } := by
  simp [prepare_join, hl, hr]

/-- Successful left_join, characterized row for row. -/
theorem left_join_ok (lt rt : Table) (jc rjc : String)
    (hl : jc ∈ lt.columns) (hr : rjc ∈ rt.columns) :
    left_join lt rt jc rjc = .ok
      { name := lt.name ++ "_" ++ "left" ++ "_join_" ++ rt.name
        columns := (joinColumnsLoop rt.name rjc rt.columns lt.columns []).1
        rows := lt.rows.flatMap (fun lrow =>
          let ms := matchesFor rt (rt.columns.indexOf rjc)
            (Table.rowGet lrow (lt.columns.indexOf jc))
          if ms.isEmpty then
            [lrow ++ List.replicate
              (joinColumnsLoop rt.name rjc rt.columns lt.columns []).2.length VNull]
          else
            ms.map (fun rrow => joinedRow lrow rrow (rt.columns.indexOf rjc))) } := by
  rw [left_join, prepare_join_ok lt rt jc rjc "left" hl hr]
  rfl

/-- Successful inner_join, characterized row for row. -/
theorem inner_join_ok (lt rt : Table) (jc rjc : String)
    (hl : jc ∈ lt.columns) (hr : rjc ∈ rt.columns) :
    inner_join lt rt jc rjc = .ok
      { name := lt.name ++ "_" ++ "inner" ++ "_join_" ++ rt.name
        columns := (joinColumnsLoop rt.name rjc rt.columns lt.columns []).1
        rows := lt.rows.flatMap (fun lrow =>
          (matchesFor rt (rt.columns.indexOf rjc)
            (Table.rowGet lrow (lt.columns.indexOf jc))).map
              (fun rrow => joinedRow lrow rrow (rt.columns.indexOf rjc))) } := by
  rw [inner_join, prepare_join_ok lt rt jc rjc "inner" hl hr]
  rfl

/-- Length of the joined schema produced by _prepare_join. -/
theorem joined_columns_length (lt rt : Table) (rjc : String)
    (hcount : rt.columns.count rjc = 1) :
    (joinColumnsLoop rt.name rjc rt.columns lt.columns []).1.length
      = lt.columns.length + (rt.columns.length - 1) := by
  rw [(joinColumnsLoop_lengths rt.name rjc rt.columns lt.columns []).1,
    filter_ne_length, hcount]

/-- Length of the right-origin column list produced by _prepare_join. -/
theorem right_col_names_length (lt rt : Table) (rjc : String)
    (hcount : rt.columns.count rjc = 1) :
    (joinColumnsLoop rt.name rjc rt.columns lt.columns []).2.length
      = rt.columns.length - 1 := by
  rw [(joinColumnsLoop_lengths rt.name rjc rt.columns lt.columns []).2,
    filter_ne_length, hcount]
  simp

/-- A row of a matched join branch has the combined length. -/
theorem joinedRow_length (lt rt : Table) (rjc : String) (hwr : rt.WF)
    (hr : rjc ∈ rt.columns) (lrow rrow : List Value) (hrrow : rrow ∈ rt.rows) :
    (joinedRow lrow rrow (rt.columns.indexOf rjc)).length
      = lrow.length + (rt.columns.length - 1) := by
  have hlen : rrow.length = rt.columns.length := hwr rrow hrrow
  have hidx : rt.columns.indexOf rjc < rrow.length := by
    rw [hlen]; exact List.indexOf_lt_length.mpr hr
  rw [joinedRow, List.length_append, List.length_eraseIdx_of_lt hidx, hlen]

/-- Rows emitted by a successful left join all have the joined schema's
length. -/
theorem left_join_WF (lt rt : Table) (jc rjc : String) (t' : Table)
    (hwl : lt.WF) (hwr : rt.WF) (hcount : rt.columns.count rjc = 1)
    (hl : jc ∈ lt.columns) (h : left_join lt rt jc rjc = .ok t') : t'.WF := by
  have hr : rjc ∈ rt.columns := List.count_pos_iff.mp (by omega)
  have hrlen : 1 ≤ rt.columns.length := List.length_pos.mpr (by
    intro hnil
    rw [hnil] at hr
    exact absurd hr (List.not_mem_nil rjc))
  rw [left_join_ok lt rt jc rjc hl hr] at h
  have ht : t' = _ := (Except.ok.inj h).symm
  subst ht
  intro r hrmem
  simp only [List.mem_flatMap] at hrmem
  obtain ⟨lrow, hlrow, hbranch⟩ := hrmem
  have hll : lrow.length = lt.columns.length := hwl lrow hlrow
  rw [joined_columns_length lt rt rjc hcount]
  by_cases hms : (matchesFor rt (rt.columns.indexOf rjc)
      (Table.rowGet lrow (lt.columns.indexOf jc))).isEmpty
  · simp only [hms, if_pos, List.mem_singleton] at hbranch
    subst hbranch
    rw [List.length_append, List.length_replicate, hll,
      right_col_names_length lt rt rjc hcount]
  · simp only [hms, if_neg, Bool.false_eq_true, not_false_eq_true,
      List.mem_map] at hbranch
    obtain ⟨rrow, hrrow, hreq⟩ := hbranch
    subst hreq
    have hrm : rrow ∈ rt.rows := List.mem_filter.mp hrrow |>.1
    rw [joinedRow_length lt rt rjc hwr hr lrow rrow hrm, hll]

/-- Rows emitted by a successful inner join all have the joined
schema's length. -/
theorem inner_join_WF (lt rt : Table) (jc rjc : String) (t' : Table)
    (hwl : lt.WF) (hwr : rt.WF) (hcount : rt.columns.count rjc = 1)
    (hl : jc ∈ lt.columns) (h : inner_join lt rt jc rjc = .ok t') : t'.WF := by
  have hr : rjc ∈ rt.columns := List.count_pos_iff.mp (by omega)
  rw [inner_join_ok lt rt jc rjc hl hr] at h
  have ht : t' = _ := (Except.ok.inj h).symm
  subst ht
  intro r hrmem
  simp only [List.mem_flatMap, List.mem_map] at hrmem
  obtain ⟨lrow, hlrow, rrow, hrrow, hreq⟩ := hrmem
  subst hreq
  have hrm : rrow ∈ rt.rows := List.mem_filter.mp hrrow |>.1
  rw [joined_columns_length lt rt rjc hcount,
    joinedRow_length lt rt rjc hwr hr lrow rrow hrm, hwl lrow hlrow]

/-- Rows appended by full_join for unmatched right rows also have the
joined schema's length, so the full join preserves the invariant. -/
theorem full_join_WF (lt rt : Table) (jc rjc : String) (t' : Table)
    (hwl : lt.WF) (hwr : rt.WF) (hcount : rt.columns.count rjc = 1)
    (hl : jc ∈ lt.columns) (h : full_join lt rt jc rjc = .ok t') : t'.WF := by
  have hr : rjc ∈ rt.columns := List.count_pos_iff.mp (by omega)
  rw [full_join, left_join_ok lt rt jc rjc hl hr] at h
  have ht : t' = _ := (Except.ok.inj h).symm
  subst ht
  intro r hrmem
  simp only [List.mem_append] at hrmem
  rcases hrmem with hrmem | hrmem
  · have hwlj := left_join_WF lt rt jc rjc _ hwl hwr hcount hl
      (left_join_ok lt rt jc rjc hl hr)
    exact hwlj r hrmem
  · simp only [List.mem_filterMap] at hrmem
    obtain ⟨rrow, hrrow, hpad⟩ := hrmem
    by_cases hk : Table.rowGet rrow (rt.columns.indexOf rjc) ∈
        lt.rows.map (fun rr => Table.rowGet rr (lt.columns.indexOf jc))
    · simp [hk] at hpad
    · simp only [hk, if_neg, not_false_eq_true, Option.some.injEq] at hpad
      subst hpad
      have hlen : rrow.length = rt.columns.length := hwr rrow hrrow
      have hidx : rt.columns.indexOf rjc < rrow.length := by
        rw [hlen]; exact List.indexOf_lt_length.mpr hr
      rw [fullJoinPad, List.length_append, List.length_replicate,
        List.length_eraseIdx_of_lt hidx, hlen,
        joined_columns_length lt rt rjc hcount]

/-- Bind on a successful Except value runs the continuation. -/
theorem exceptBind_ok {ε α β : Type} (a : α) (f : α → Except ε β) :
    (Except.ok a >>= f : Except ε β) = f a := rfl

/-- In-range rowGet is plain list indexing. -/
theorem rowGet_eq_get (row : List Value) (i : ℕ) (h : i < row.length) :
    Table.rowGet row i = row.get ⟨i, h⟩ := by
  simp [Table.rowGet, List.getD_eq_getElem?_getD, List.getElem?_eq_getElem h]

/-- A type-compatible string fallback never raises. -/
theorem strCmp_safe (op : String) (x y : Value) (h : strCmpSafe op x y = true) :
    ∃ b, strCmp op x y = .ok b := by
  rcases em (op = "=") with h1 | h1
  · exact ⟨decide (x = y), by simp [strCmp, h1]⟩
  rcases em (op = "!=") with h6 | h6
  · subst h6
    exact ⟨!decide (x = y), by simp [strCmp]⟩
  rcases em (op = "<") with h2 | h2
  · subst h2
    simp only [strCmpSafe, if_pos] at h
    cases x <;> cases y <;> simp_all [strCmp, pyLt]
  rcases em (op = ">") with h3 | h3
  · subst h3
    simp only [strCmpSafe, if_pos] at h
    cases x <;> cases y <;> simp_all [strCmp, pyLt]
  rcases em (op = "<=") with h4 | h4
  · subst h4
    simp only [strCmpSafe, if_pos] at h
    cases x <;> cases y <;> simp_all [strCmp, pyLe]
  rcases em (op = ">=") with h5 | h5
  · subst h5
    simp only [strCmpSafe, if_pos] at h
    cases x <;> cases y <;> simp_all [strCmp, pyLe]
  exact ⟨false, by simp [strCmp, h1, h2, h3, h4, h5, h6]⟩

/-- Totality of the evaluator on safe trees over rows that conform to
the schema. -/
theorem evaluate_total (c : Cond) : ∀ (row : List Value) (columns : List String),
    row.length = columns.length → condSafe c row columns = true →
    ∃ b, evaluate c row columns = .ok b := by
  induction c with
  | Comparison col op v =>
    intro row columns hlen hsafe
    simp only [evaluate, evalComparison]
    by_cases hc : col ∈ columns
    · have hidx : columns.indexOf col < row.length := by
        rw [hlen]; exact List.indexOf_lt_length.mpr hc
      rw [if_pos hc, dif_pos hidx]
      simp only [condSafe, compSafe, if_pos hc, Bool.or_eq_true, Bool.and_eq_true,
        Option.isSome_iff_exists, rowGet_eq_get row _ hidx] at hsafe
      cases hn : toNum (row.get ⟨columns.indexOf col, hidx⟩) with
      | some a =>
        cases hv : toNum v with
        | some b => exact ⟨numCmp op a b, by simp [hn, hv]⟩
        | none =>
          have hss : strCmpSafe op (row.get ⟨columns.indexOf col, hidx⟩) v = true := by
            rcases hsafe with ⟨_, _, hv2⟩ | hss
            · rw [hv] at hv2; simp at hv2
            · exact hss
          obtain ⟨b, hb⟩ := strCmp_safe op _ v hss
          refine ⟨b, ?_⟩
          simp only [hn, hv]
          simpa using hb
      | none =>
        have hss : strCmpSafe op (row.get ⟨columns.indexOf col, hidx⟩) v = true := by
          rcases hsafe with ⟨⟨q, hq⟩, _⟩ | hss
          · rw [hn] at hq; simp at hq
          · exact hss
        obtain ⟨b, hb⟩ := strCmp_safe op _ v hss
        refine ⟨b, ?_⟩
        cases hv : toNum v <;> simp only [hn, hv] <;> simpa using hb
    · exact ⟨false, by rw [if_neg hc]⟩
  | And l r ihl ihr =>
    intro row columns hlen hsafe
    simp only [condSafe, Bool.and_eq_true] at hsafe
    obtain ⟨b, hb⟩ := ihl row columns hlen hsafe.1
    cases b
    · exact ⟨false, by simp [evaluate, hb, exceptBind_ok]⟩
    · obtain ⟨b2, hb2⟩ := ihr row columns hlen hsafe.2
      exact ⟨b2, by simp [evaluate, hb, hb2, exceptBind_ok]⟩
  | Or l r ihl ihr =>
    intro row columns hlen hsafe
    simp only [condSafe, Bool.and_eq_true] at hsafe
    obtain ⟨b, hb⟩ := ihl row columns hlen hsafe.1
    cases b
    · obtain ⟨b2, hb2⟩ := ihr row columns hlen hsafe.2
      exact ⟨b2, by simp [evaluate, hb, hb2, exceptBind_ok]⟩
    · exact ⟨true, by simp [evaluate, hb, exceptBind_ok]⟩
  | Not c ih =>
    intro row columns hlen hsafe
    simp only [condSafe] at hsafe
    obtain ⟨b, hb⟩ := ih row columns hlen hsafe
    exact ⟨!b, by simp [evaluate, hb, exceptBind_ok]⟩

/-- Absence of a substring means the single split fails. -/
theorem containsSub_false_splitOnce (s pat : List Char)
    (h : containsSub s pat = false) : splitOnce s pat = none := by
  cases hx : splitOnce s pat
  · rfl
  · rw [containsSub, hx] at h
    simp at h

/-- An operator that does not occur is skipped by the comparison
loop. -/
theorem tryOps_cons_none (op : String) (rest : List String) (w : String)
    (h : splitOnce w.data op.data = none) :
    tryOps (op :: rest) w = tryOps rest w := by
  simp [tryOps, h]

/-- The first operator that occurs splits the clause once and builds
the Comparison node. -/
theorem tryOps_cons_some (op : String) (rest : List String) (w : String)
    (l r : List Char) (h : splitOnce w.data op.data = some (l, r)) :
    tryOps (op :: rest) w = .ok (.Comparison (pyStrip (String.mk l)) op
      (parseLit (pyStrip (String.mk r)))) := by
  simp [tryOps, h]

/-- Characterization of project on a non-empty request: the schema is
the request verbatim and each row keeps the values of the requested
names that exist in the source schema, in request order. -/
theorem project_characterization (t : Table) (cols : List String) (h : cols ≠ []) :
    (t.project cols).name = t.name ∧
    (t.project cols).columns = cols ∧
    (t.project cols).rows = t.rows.map (fun r =>
      (cols.filter (fun c => decide (c ∈ t.columns))).map
        (fun c => Table.rowGet r (t.columns.indexOf c))) := by
  have h2 : cols.isEmpty = false := by cases cols <;> simp_all
  refine ⟨by simp [Table.project, h2], by simp [Table.project, h2], ?_⟩
  simp only [Table.project, h2, Bool.false_eq_true, if_false]
  rw [filterMap_guard_pos (fun c => c ∈ t.columns) (fun c => t.columns.indexOf c) cols]
  simp [List.map_map, Function.comp]

/-- Evaluation of the float conversion on the literal 1.5 (the
rational arithmetic is normalized propositionally, since kernel
reduction does not compute rational division). -/
theorem parseLit_float_example : parseLit "1.5" = VNum (3 / 2) := by
  have h : parseLit "1.5" = VNum ((natOfDigits ['1'] : ℚ)
      + (natOfDigits ['5'] : ℚ) / (10 : ℚ) ^ (['5'] : List Char).length) := by rfl
  rw [h]
  congr 1
  norm_num [natOfDigits, show ('1').toNat = 49 from rfl, show ('5').toNat = 53 from rfl]

/-- C1 counterexample: full_join at a concrete input appends the
unmatched right row (key 2) with Null in EVERY left-origin position,
including the join-key position, so the appended row is not the row
with the key value placed in the left schema that the claim
predicts. -/
theorem full_join_pads_key_with_null :
    full_join { name := "L", columns := ["id", "x"], rows := [[VNum 1, VStr "a"]] }
        { name := "R", columns := ["id", "y"],
          rows := [[VNum 1, VStr "p"], [VNum 2, VStr "q"]] } "id" "id" =
      .ok { name := "L_left_join_R", columns := ["id", "x", "y"],
            rows := [[VNum 1, VStr "a", VStr "p"], [VNull, VNull, VStr "q"]] } ∧
    ([VNull, VNull, VStr "q"] : List Value) ≠ [VNum 2, VNull, VStr "q"] := by
  constructor
  · decide
  · decide

/-- C1 (amended): full_join first computes the left join and then, for
every right-table row whose join-key value does not occur among the
join-key values of the left table's own rows, appends exactly one
extra row that is Null in every left-origin column (the join-key
position included), followed by the right-origin values with the join
column omitted. -/
theorem full_join_is_left_join_plus_padded_right (lt rt : Table) (jc rjc : String)
    (hl : jc ∈ lt.columns) (hr : rjc ∈ rt.columns) :
    full_join lt rt jc rjc = (left_join lt rt jc rjc).map (fun lj =>
      { lj with rows := lj.rows ++
          ((rt.rows.filter (fun rrow =>
              Table.rowGet rrow (rt.columns.indexOf rjc) ∉
                lt.rows.map (fun lrow => Table.rowGet lrow (lt.columns.indexOf jc)))).map
            (fun rrow => fullJoinPad lt rrow (rt.columns.indexOf rjc))) }) := by
  rw [full_join, left_join_ok lt rt jc rjc hl hr]
  simp only [exceptBind_ok, Except.map]
  rw [filterMap_guard_neg (fun rrow =>
    Table.rowGet rrow (rt.columns.indexOf rjc) ∈
      lt.rows.map (fun lrow => Table.rowGet lrow (lt.columns.indexOf jc)))
    (fun rrow => fullJoinPad lt rrow (rt.columns.indexOf rjc)) rt.rows]

/-- C1 witness: the amended theorem applied at concrete tables, then
both sides evaluated. -/
theorem full_join_is_left_join_plus_padded_right_w :
    full_join { name := "L", columns := ["id"], rows := [[VNum 1]] }
        { name := "R", columns := ["id", "y"], rows := [[VNum 2, VStr "q"]] } "id" "id" =
      .ok { name := "L_left_join_R", columns := ["id", "y"],
            rows := [[VNum 1, VNull], [VNull, VStr "q"]] } := by
  have h := full_join_is_left_join_plus_padded_right
    { name := "L", columns := ["id"], rows := [[VNum 1]] }
    { name := "R", columns := ["id", "y"], rows := [[VNum 2, VStr "q"]] }
    "id" "id" (by decide) (by decide)
  rw [h]
  decide

/-- C2: at the failing input, a WHERE clause whose AND keyword is
lowercase passes the case-insensitive detection but the split on the
uppercase keyword returns one piece, so the two-variable unpacking
raises ValueError instead of producing the And node the claim (and the
spec) describe. -/
theorem parse_where_lowercase_and_raises :
    parse_where_clause "a = 1 and b = 2" =
      .error "ValueError: not enough values to unpack (expected 2, got 1)" := by
  rw [parse_where_clause, parseWhere]
  decide

/-- C3 counterexample: a well-formed comparison of a Null row value
under an ordering operator reaches the string-fallback branch and
raises TypeError, so evaluate is not total on Null row values. -/
theorem evaluate_null_ordering_raises :
    evaluate (.Comparison "a" "<" (VStr "b")) [VNull] ["a"] =
      .error "TypeError: unorderable types" := by decide

/-- C3 (amended): evaluate is pure and returns a boolean without
raising whenever every comparison in the tree is type-compatible: its
column may be absent (the comparison is False), or both sides convert
to numbers, or the operator is = / !=, or both sides are text; a
comparison whose column is missing from the schema evaluates to False
rather than failing. -/
theorem evaluate_total_on_safe_trees :
    (∀ (c : Cond) (row : List Value) (columns : List String),
      row.length = columns.length → condSafe c row columns = true →
      (evaluate c row columns).isOk = true) ∧
    (∀ (col op : String) (v : Value) (row : List Value) (columns : List String),
      col ∉ columns → evaluate (.Comparison col op v) row columns = .ok false) := by
  constructor
  · intro c row columns h1 h2
    obtain ⟨b, hb⟩ := evaluate_total c row columns h1 h2
    rw [hb]
    rfl
  · intro col op v row columns hc
    simp [evaluate, evalComparison, hc]

/-- C3 witness: the totality statement applied to a concrete safe tree
holding a Null (under =) and the missing-column statement applied to a
concrete comparison. -/
theorem evaluate_total_on_safe_trees_w :
    (evaluate (.And (.Comparison "a" "<" (VNum 5)) (.Not (.Comparison "b" "=" (VStr "x"))))
        [VNum 3, VNull] ["a", "b"]).isOk = true ∧
    evaluate (.Comparison "zz" ">" VNull) [VNum 3] ["a"] = .ok false := by
  constructor
  · exact evaluate_total_on_safe_trees.1
      (.And (.Comparison "a" "<" (VNum 5)) (.Not (.Comparison "b" "=" (VStr "x"))))
      [VNum 3, VNull] ["a", "b"] (by decide) (by decide)
  · exact evaluate_total_on_safe_trees.2 "zz" ">" VNull [VNum 3] ["a"] (by decide)

/-- C4 counterexample: when only one side parses as a number, an
ordering comparison does not fall back to a text comparison as the
claim states: it raises TypeError (numeric row value against
non-numeric literal). -/
theorem evaluate_mixed_fallback_raises :
    evaluate (.Comparison "a" "<" (VStr "zzz")) [VNum 5] ["a"] =
      .error "TypeError: unorderable types" := by decide

/-- C4 (amended): if both the row value and the literal convert under
float(), the comparison is numeric; otherwise the fallback compares
the raw values: = and != are plain (dis)equality whatever the kinds of
the two values, while the four ordering operators <, >, <=, >= compare
lexicographically when both values are text (a mixed ordering fallback
raises TypeError instead, see the counterexample); in particular the
texts 10 and 9 compare numerically under <, giving false. -/
theorem comparison_numeric_else_text :
    (∀ (col op : String) (v : Value) (row : List Value) (columns : List String) (a b : ℚ),
      row.length = columns.length → col ∈ columns →
      toNum (Table.rowGet row (columns.indexOf col)) = some a → toNum v = some b →
      evaluate (.Comparison col op v) row columns = .ok (numCmp op a b)) ∧
    (∀ (col : String) (v : Value) (row : List Value) (columns : List String),
      row.length = columns.length → col ∈ columns →
      (toNum (Table.rowGet row (columns.indexOf col)) = none ∨ toNum v = none) →
      evaluate (.Comparison col "=" v) row columns =
        .ok (decide (Table.rowGet row (columns.indexOf col) = v)) ∧
      evaluate (.Comparison col "!=" v) row columns =
        .ok (decide (Table.rowGet row (columns.indexOf col) ≠ v))) ∧
    (∀ (col : String) (row : List Value) (columns : List String) (s t : String),
      row.length = columns.length → col ∈ columns →
      Table.rowGet row (columns.indexOf col) = VStr s →
      (pyFloat? s = none ∨ pyFloat? t = none) →
      evaluate (.Comparison col "<" (VStr t)) row columns = .ok (decide (s < t)) ∧
      evaluate (.Comparison col ">" (VStr t)) row columns = .ok (decide (t < s)) ∧
      evaluate (.Comparison col "<=" (VStr t)) row columns = .ok (decide (s ≤ t)) ∧
      evaluate (.Comparison col ">=" (VStr t)) row columns = .ok (decide (t ≤ s))) ∧
    evaluate (.Comparison "a" "<" (VStr "9")) [VStr "10"] ["a"] = .ok false := by
  refine ⟨?_, ?_, ?_, by decide⟩
  · intro col op v row columns a b hlen hc hn hv
    have hidx : columns.indexOf col < row.length := by
      rw [hlen]; exact List.indexOf_lt_length.mpr hc
    rw [rowGet_eq_get row _ hidx] at hn
    simp only [evaluate, evalComparison, if_pos hc, dif_pos hidx, hn, hv]
  · intro col v row columns hlen hc hnone
    have hidx : columns.indexOf col < row.length := by
      rw [hlen]; exact List.indexOf_lt_length.mpr hc
    rw [rowGet_eq_get row _ hidx] at hnone ⊢
    constructor <;>
    · simp only [evaluate, evalComparison, if_pos hc, dif_pos hidx]
      rcases hnone with hs | hv2
      · rw [List.get_eq_getElem] at hs
        cases ht2 : toNum v <;> simp [hs, ht2, strCmp]
      · cases hr2 : toNum (row.get ⟨columns.indexOf col, hidx⟩) <;>
          simp [hr2, hv2, strCmp]
  · intro col row columns s t hlen hc hrv hnone
    have hidx : columns.indexOf col < row.length := by
      rw [hlen]; exact List.indexOf_lt_length.mpr hc
    rw [rowGet_eq_get row _ hidx] at hrv
    refine ⟨?_, ?_, ?_, ?_⟩ <;>
    · simp only [evaluate, evalComparison, if_pos hc, dif_pos hidx, hrv]
      rcases hnone with hs | ht
      · cases hv2 : toNum (VStr t) <;>
          simp [toNum, hs, hv2, strCmp, pyLt, pyLe]
      · simp only [toNum, ht]
        cases hv2 : pyFloat? s <;>
          simp [toNum, hv2, strCmp, pyLt, pyLe]

/-- C4 witness: the numeric branch at texts 10 and 9 under the greater
operator, the disequality fallback at a text row value against the
Null literal, and the lexicographic branch at two non-numeric texts
under each ordering operator. -/
theorem comparison_numeric_else_text_w :
    evaluate (.Comparison "a" ">" (VStr "9")) [VStr "10"] ["a"] = .ok (numCmp ">" 10 9) ∧
    evaluate (.Comparison "a" "!=" VNull) [VStr "abc"] ["a"] =
      .ok (decide ((VStr "abc" : Value) ≠ VNull)) ∧
    evaluate (.Comparison "a" "<" (VStr "banana")) [VStr "apple"] ["a"] =
      .ok (decide ("apple" < "banana")) ∧
    evaluate (.Comparison "a" ">=" (VStr "banana")) [VStr "apple"] ["a"] =
      .ok (decide ("banana" ≤ "apple")) := by
  refine ⟨?_, ?_, ?_, ?_⟩
  · exact comparison_numeric_else_text.1 "a" ">" (VStr "9") [VStr "10"] ["a"] 10 9
      (by decide) (by decide) (by decide) (by decide)
  · exact (comparison_numeric_else_text.2.1 "a" VNull [VStr "abc"] ["a"]
      (by decide) (by decide) (by decide)).2
  · exact (comparison_numeric_else_text.2.2.1 "a" [VStr "apple"] ["a"] "apple" "banana"
      (by decide) (by decide) (by decide) (by decide)).1
  · exact (comparison_numeric_else_text.2.2.1 "a" [VStr "apple"] ["a"] "apple" "banana"
      (by decide) (by decide) (by decide) (by decide)).2.2.2

/-- C5 counterexample: projecting an unknown column name keeps it in
the result schema instead of dropping it, so the result schema is the
request verbatim, not the claimed intersection with the source
schema. -/
theorem project_keeps_unknown_names_in_schema :
    (Table.project { name := "t", columns := ["a"], rows := [[VStr "x"]] }
        ["a", "b"]).columns = ["a", "b"] ∧
    (["a", "b"] : List String) ≠ ["a"] := by decide

/-- C5 (amended): for a non-empty request, project raises no error and
returns a table whose schema is the requested names verbatim (unknown
names included), while each result row holds the source row's values
for exactly the requested names that exist in the source schema, in
request order. -/
theorem project_schema_verbatim (t : Table) (cols : List String) (h : cols ≠ []) :
    (t.project cols).name = t.name ∧
    (t.project cols).columns = cols ∧
    (t.project cols).rows = t.rows.map (fun r =>
      (cols.filter (fun c => decide (c ∈ t.columns))).map
        (fun c => Table.rowGet r (t.columns.indexOf c))) :=
  project_characterization t cols h

/-- C5 witness: the amended theorem at a concrete table and request
containing one known and one unknown name. -/
theorem project_schema_verbatim_w :
    (Table.project { name := "t", columns := ["a"], rows := [[VStr "x"]] }
        ["b", "a"]).columns = ["b", "a"] :=
  (project_schema_verbatim { name := "t", columns := ["a"], rows := [[VStr "x"]] }
    ["b", "a"] (by decide)).2.1

/-- C6 counterexample: project with an unknown requested column emits
rows shorter than the result schema, breaking the row-length
invariant. -/
theorem project_breaks_invariant :
    ¬ (Table.project { name := "t", columns := ["a"], rows := [[VStr "x"]] }
        ["a", "b"]).WF := by decide

/-- C6 (amended): the row-length invariant is preserved by insert,
select, union, intersection, difference, cartesian_product and the
four joins (the joins under the spec's schema well-formedness: the
join columns exist and the right join column occurs once), and by
project when every requested column exists in the source schema; the
counterexample shows project with an unknown requested column breaks
it. -/
theorem engine_ops_preserve_row_length :
    (∀ (t : Table) (v : List Value) (t' : Table),
      t.WF → t.insert v = .ok t' → t'.WF) ∧
    (∀ (t : Table) (p : Option (List Value → List String → Bool)),
      t.WF → (t.select p).WF) ∧
    (∀ (t : Table) (cols : List String),
      t.WF → (∀ c ∈ cols, c ∈ t.columns) → (t.project cols).WF) ∧
    (∀ (a b t' : Table), a.WF → b.WF → a.union b = .ok t' → t'.WF) ∧
    (∀ (a b t' : Table), a.WF → b.WF → a.intersection b = .ok t' → t'.WF) ∧
    (∀ (a b t' : Table), a.WF → b.WF → a.difference b = .ok t' → t'.WF) ∧
    (∀ (a b : Table), a.WF → b.WF → (a.cartesian_product b).WF) ∧
    (∀ (lt rt : Table) (jc rjc : String) (t' : Table), lt.WF → rt.WF →
      jc ∈ lt.columns → rt.columns.count rjc = 1 →
      inner_join lt rt jc rjc = .ok t' → t'.WF) ∧
    (∀ (lt rt : Table) (jc rjc : String) (t' : Table), lt.WF → rt.WF →
      jc ∈ lt.columns → rt.columns.count rjc = 1 →
      left_join lt rt jc rjc = .ok t' → t'.WF) ∧
    (∀ (lt rt : Table) (jc rjc : String) (t' : Table), lt.WF → rt.WF →
      rjc ∈ rt.columns → lt.columns.count jc = 1 →
      right_join lt rt jc rjc = .ok t' → t'.WF) ∧
    (∀ (lt rt : Table) (jc rjc : String) (t' : Table), lt.WF → rt.WF →
      jc ∈ lt.columns → rt.columns.count rjc = 1 →
      full_join lt rt jc rjc = .ok t' → t'.WF) := by
  refine ⟨?_, ?_, ?_, ?_, ?_, ?_, ?_, ?_, ?_, ?_, ?_⟩
  · intro t v t' hw h
    rw [Table.insert] at h
    split at h
    · exact absurd h (by simp)
    · next hlen =>
      have ht : t' = _ := (Except.ok.inj h).symm
      subst ht
      intro r hr
      simp only [List.mem_append, List.mem_singleton] at hr
      rcases hr with hr | hreq
      · exact hw r hr
      · subst hreq
        show r.length = t.columns.length
        omega
  · intro t p hw
    cases p with
    | none => intro r hr; exact hw r hr
    | some f =>
      intro r hr
      exact hw r (List.mem_of_mem_filter hr)
  · intro t cols hw hall
    by_cases hn : cols = []
    · subst hn
      intro r hr
      exact hw r hr
    · obtain ⟨_, hcols, hrows⟩ := project_characterization t cols hn
      intro r hr
      rw [hrows] at hr
      simp only [List.mem_map] at hr
      obtain ⟨r0, _, rfl⟩ := hr
      rw [hcols, List.length_map,
        List.filter_eq_self.mpr (by intro c hc; exact decide_eq_true (hall c hc))]
  · intro a b t' hwa hwb h
    rw [Table.union] at h
    split at h
    · exact absurd h (by simp)
    · next hschema =>
      have hbc : a.columns = b.columns := by
        by_contra hne
        exact hschema hne
      have ht : t' = _ := (Except.ok.inj h).symm
      subst ht
      intro r hr
      simp only [List.mem_append] at hr
      rcases hr with hr | hr
      · exact hwa r hr
      · rw [hbc]
        exact hwb r (List.mem_of_mem_filter hr)
  · intro a b t' hwa hwb h
    rw [Table.intersection] at h
    split at h
    · exact absurd h (by simp)
    · have ht : t' = _ := (Except.ok.inj h).symm
      subst ht
      intro r hr
      exact hwa r (List.mem_of_mem_filter hr)
  · intro a b t' hwa hwb h
    rw [Table.difference] at h
    split at h
    · exact absurd h (by simp)
    · have ht : t' = _ := (Except.ok.inj h).symm
      subst ht
      intro r hr
      exact hwa r (List.mem_of_mem_filter hr)
  · intro a b hwa hwb
    intro r hr
    simp only [Table.cartesian_product, List.mem_flatMap, List.mem_map] at hr
    obtain ⟨r1, hr1, r2, hr2, rfl⟩ := hr
    simp only [Table.cartesian_product, Table.productColumns, List.length_append,
      List.length_map]
    rw [hwa r1 hr1, hwb r2 hr2]
  · intro lt rt jc rjc t' hwl hwr hl hc h
    exact inner_join_WF lt rt jc rjc t' hwl hwr hc hl h
  · intro lt rt jc rjc t' hwl hwr hl hc h
    exact left_join_WF lt rt jc rjc t' hwl hwr hc hl h
  · intro lt rt jc rjc t' hwl hwr hr hc h
    exact left_join_WF rt lt rjc jc t' hwr hwl hc hr h
  · intro lt rt jc rjc t' hwl hwr hl hc h
    exact full_join_WF lt rt jc rjc t' hwl hwr hc hl h

/-- C6 witness: the insert clause of the invariant theorem applied to
a concrete table and row. -/
theorem engine_ops_preserve_row_length_w :
    Table.WF { name := "t", columns := ["a"], rows := [[VNull]] } :=
  engine_ops_preserve_row_length.1 { name := "t", columns := ["a"], rows := [] }
    [VNull] { name := "t", columns := ["a"], rows := [[VNull]] }
    (by decide) (by decide)

/-- C7 counterexample: a duplicated novel row of B is appended twice
(the membership set is computed once from A's rows and not updated),
so the union has 2 rows where the claimed formula with the CARDINALITY
of the set difference gives 0 + 1 = 1. -/
theorem union_duplicate_novel_rows :
    Table.union { name := "A", columns := ["x"], rows := [] }
        { name := "B", columns := ["x"], rows := [[VStr "r"], [VStr "r"]] } =
      .ok { name := "A_union_B", columns := ["x"],
            rows := [[VStr "r"], [VStr "r"]] } ∧
    ((([[VStr "r"], [VStr "r"]] : List (List Value)).filter
        (fun r => decide (r ∉ ([] : List (List Value))))).dedup).length = 1 ∧
    (2 : ℕ) ≠ 0 + 1 := by
  refine ⟨by decide, by decide, by decide⟩

/-- C7 (amended): with equal schemas the union is A's rows followed by
every OCCURRENCE of a B row absent from A's rows, in order, so its row
count is A's count plus the number of such occurrences (a multiplicity
count, not the cardinality of a set difference); with different
schemas it fails with the schema-mismatch error. -/
theorem union_spec (a b : Table) :
    (a.columns = b.columns →
      a.union b = .ok ⟨a.name ++ "_union_" ++ b.name, a.columns,
        a.rows ++ b.rows.filter (fun r => decide (r ∉ a.rows))⟩ ∧
      (a.rows ++ b.rows.filter (fun r => decide (r ∉ a.rows))).length
        = a.rows.length + (b.rows.filter (fun r => decide (r ∉ a.rows))).length) ∧
    (a.columns ≠ b.columns →
      a.union b = .error "Cannot union tables with different schemas") := by
  constructor
  · intro h
    constructor
    · rw [Table.union, if_neg (by simp [h])]
    · rw [List.length_append]
  · intro h
    rw [Table.union, if_pos h]

/-- C7 witness: the amended theorem at concrete equal-schema tables
with one shared row and one novel row. -/
theorem union_spec_w :
    Table.union { name := "A", columns := ["x"], rows := [[VNum 1]] }
        { name := "B", columns := ["x"], rows := [[VNum 1], [VNum 2]] } =
      .ok { name := "A_union_B", columns := ["x"], rows := [[VNum 1], [VNum 2]] } := by
  have h := (union_spec { name := "A", columns := ["x"], rows := [[VNum 1]] }
    { name := "B", columns := ["x"], rows := [[VNum 1], [VNum 2]] }).1 (by decide)
  rw [h.1]
  decide

/-- C8 counterexample: the clause a != 5 is split at its equals sign
(the = operator is checked first and occurs inside !=), producing the
operator = with the stray exclamation mark left in the column text,
not the Comparison node with operator != that the claim predicts. -/
theorem parse_bang_eq_splits_at_eq :
    parse_where_clause "a != 5" = .ok (.Comparison "a !" "=" (VNum 5)) ∧
    Cond.Comparison "a !" "=" (VNum 5) ≠ .Comparison "a" "!=" (VNum 5) := by
  constructor
  · rw [parse_where_clause, parseWhere]
    decide
  · decide

/-- C8 (amended): the comparison branch checks the operators in the
textual order =, <>, !=, >, <, >=, <= and splits the clause at the
first occurrence of the first operator text found as a substring (so a
comparison written with !=, >= or <= is captured by an earlier
operator); both sides of the split are stripped and the right side is
converted: quotes stripped, NULL to the Null scalar, dotted numeric
text to a number via float, other numeric text via int, else kept as
text. -/
theorem parse_comparison_operator_scan
    (w op : String) (l r : List Char)
    (h1 : containsSub (w.data.map Char.toUpper) andPat = false)
    (h2 : containsSub (w.data.map Char.toUpper) orPat = false)
    (h3 : (w.data.map Char.toUpper).take 4 ≠ notPat)
    (h4 : op ∈ opsList)
    (h5 : ∀ o ∈ opsBefore op, containsSub w.data o.data = false)
    (h6 : splitOnce w.data op.data = some (l, r)) :
    parse_where_clause w = .ok (.Comparison (pyStrip (String.mk l)) op
      (parseLit (pyStrip (String.mk r)))) ∧
    parseLit "'Bob'" = VStr "Bob" ∧ parseLit "NULL" = VNull ∧
    parseLit "18" = VNum 18 ∧ parseLit "1.5" = VNum (3 / 2) ∧
    parseLit "x1" = VStr "x1" := by
  refine ⟨?_, by decide, by decide, by decide, parseLit_float_example, by decide⟩
  rw [parse_where_clause, parseWhere,
    if_neg (by rw [h1]; simp), if_neg (by rw [h2]; simp), dif_neg h3]
  have e : ∀ o : String, o ∈ opsBefore op → splitOnce w.data o.data = none :=
    fun o ho => containsSub_false_splitOnce _ _ (h5 o ho)
  simp only [opsList, List.mem_cons, List.not_mem_nil, or_false] at h4
  rcases h4 with rfl | rfl | rfl | rfl | rfl | rfl | rfl
  · rw [opsList, tryOps_cons_some _ _ _ _ _ h6]
  · rw [opsList, tryOps_cons_none _ _ _ (e "=" (by decide)),
      tryOps_cons_some _ _ _ _ _ h6]
  · rw [opsList, tryOps_cons_none _ _ _ (e "=" (by decide)),
      tryOps_cons_none _ _ _ (e "<>" (by decide)),
      tryOps_cons_some _ _ _ _ _ h6]
  · rw [opsList, tryOps_cons_none _ _ _ (e "=" (by decide)),
      tryOps_cons_none _ _ _ (e "<>" (by decide)),
      tryOps_cons_none _ _ _ (e "!=" (by decide)),
      tryOps_cons_some _ _ _ _ _ h6]
  · rw [opsList, tryOps_cons_none _ _ _ (e "=" (by decide)),
      tryOps_cons_none _ _ _ (e "<>" (by decide)),
      tryOps_cons_none _ _ _ (e "!=" (by decide)),
      tryOps_cons_none _ _ _ (e ">" (by decide)),
      tryOps_cons_some _ _ _ _ _ h6]
  · rw [opsList, tryOps_cons_none _ _ _ (e "=" (by decide)),
      tryOps_cons_none _ _ _ (e "<>" (by decide)),
      tryOps_cons_none _ _ _ (e "!=" (by decide)),
      tryOps_cons_none _ _ _ (e ">" (by decide)),
      tryOps_cons_none _ _ _ (e "<" (by decide)),
      tryOps_cons_some _ _ _ _ _ h6]
  · rw [opsList, tryOps_cons_none _ _ _ (e "=" (by decide)),
      tryOps_cons_none _ _ _ (e "<>" (by decide)),
      tryOps_cons_none _ _ _ (e "!=" (by decide)),
      tryOps_cons_none _ _ _ (e ">" (by decide)),
      tryOps_cons_none _ _ _ (e "<" (by decide)),
      tryOps_cons_none _ _ _ (e ">=" (by decide)),
      tryOps_cons_some _ _ _ _ _ h6]

/-- C8 witness: the operator-scan theorem at a concrete simple equality
comparison with a quoted literal, then evaluated. -/
theorem parse_comparison_operator_scan_w :
    parse_where_clause "name = 'Bob'" = .ok (.Comparison "name" "=" (VStr "Bob")) := by
  have h := parse_comparison_operator_scan "name = 'Bob'" "="
    "name ".data " 'Bob'".data (by decide) (by decide) (by decide) (by decide)
    (by decide) (by decide)
  rw [h.1]
  decide

/-- C9: insert first checks that the value count equals the column
count, raising the arity error and leaving the row list untouched when
they differ (in this value-level embedding the failing call returns no
updated table, matching the source where the guard raises before the
append), and otherwise appends exactly the one given row at the end. -/
theorem insert_checks_arity_then_appends (t : Table) (v : List Value) :
    (v.length ≠ t.columns.length →
      t.insert v = .error ("Expected " ++ toString t.columns.length ++
        " values, got " ++ toString v.length)) ∧
    (v.length = t.columns.length →
      t.insert v = .ok { t with rows := t.rows ++ [v] }) := by
  constructor <;> intro h
  · simp [Table.insert, h]
  · simp [Table.insert, h]

/-- C9 witness: both branches of the arity theorem at concrete
inputs, matching the spec's scenario of a 3-value insert into a
2-column table. -/
theorem insert_checks_arity_then_appends_w :
    Table.insert { name := "t", columns := ["a", "b"], rows := [] }
        [VNum 1, VNum 2, VNum 3] = .error "Expected 2 values, got 3" ∧
    Table.insert { name := "t", columns := ["a", "b"], rows := [] } [VNum 1, VNum 2] =
      .ok { name := "t", columns := ["a", "b"], rows := [[VNum 1, VNum 2]] } := by
  constructor
  · exact (insert_checks_arity_then_appends
      { name := "t", columns := ["a", "b"], rows := [] } [VNum 1, VNum 2, VNum 3]).1
      (by decide)
  · exact (insert_checks_arity_then_appends
      { name := "t", columns := ["a", "b"], rows := [] } [VNum 1, VNum 2]).2
      (by decide)

/-- C10: every Table converts to True (also with zero rows), so the
dispatcher's existence test written as Python "if not table" on a
get_table result fires exactly when the lookup returned nothing, never
because a registered table is empty. -/
theorem table_always_truthy :
    (∀ t : Table, t.toBool = true) ∧
    (∀ lookup : Option Table, tableMissing lookup = true ↔ lookup = none) := by
  refine ⟨fun t => rfl, fun lookup => ?_⟩
  cases lookup <;> simp [tableMissing, Table.toBool]
